import Mathlib

/-!
Verification of the SMS ingestion pipeline of the Pico repository.

The repository contains two parallel implementations of the same subsystem:
`sdk/sms.py` (filename codec `parse_filename`, live reassembly buffer
`SMSAssembler` with `add_part` / `_flush_buffer`, and the on-demand inbox
scanner `get_inbox_messages`) and `services/sms.py` (the same regex in
`SMSHandler.FILENAME_PATTERN`, and `SMSAssembler` with `add_part` /
`process_buffer` delivering to a notification sink, plus `SMSService.start`).

Strings are modelled as `List Char`.  Python's `re` digit class `\d` is
modelled by the ASCII digit test (all spool names use ASCII digits).
Python's `$` anchor matches at the end of the string or just before one
trailing newline; the codec model reflects this by stripping at most one
trailing newline before the anchored match.
-/

/-- Text is modelled as a list of characters. -/
abbrev Text := List Char

/-- The newline character (excluded by the regex's `.` class and special to `$`). -/
def nl : Char := '\n'

/-- ASCII digit test, modelling the regex class `\d` on spool filenames. -/
def isDig (c : Char) : Bool := decide (48 ≤ c.toNat ∧ c.toNat ≤ 57)

/-- Take exactly `n` digit characters from the front, returning them and the rest
(modelling a fixed-width `\d{n}` group). -/
def takeDigits : Nat → Text → Option (Text × Text)
  | 0, s => some ([], s)
  | n + 1, c :: cs =>
    if isDig c then (takeDigits n cs).map (fun dr => (c :: dr.1, dr.2)) else none
  | _ + 1, [] => none

/-- Consume one expected literal character from the front. -/
def expectC (c : Char) : Text → Option Text
  | [] => none
  | d :: r => if d = c then some r else none

/-- Match the end-anchored part `(.*)_(\d{2})\.txt` of the filename regex.
Because the suffix after the greedy capture has fixed width 7, the greedy
`(.*)` capture is exactly everything except the last 7 characters; the `.`
class excludes newlines. Returns (sender capture, the two sequence digits). -/
def matchEnd (r : Text) : Option (Text × Char × Char) :=
  match r.drop (r.length - 7) with
  | [u, a, b, p, t1, x1, t2] =>
    if u = '_' ∧ p = '.' ∧ t1 = 't' ∧ x1 = 'x' ∧ t2 = 't' ∧ isDig a = true ∧
        isDig b = true ∧ (r.take (r.length - 7)).all (fun c => c != nl) = true then
      some (r.take (r.length - 7), a, b)
    else none
  | _ => none

/-- Numeric value of a two-digit sequence field, modelling `int(seq_str)`. -/
def twoDigitVal (a b : Char) : Nat := (a.toNat - 48) * 10 + (b.toNat - 48)

/-- Structured segment metadata, the dict returned by `parse_filename`. -/
structure SegMeta where
  date : Text
  time : Text
  serial : Text
  phone : Text
  seq : Nat
deriving DecidableEq, Repr

/-- Anchored match of `^IN(\d{8})_(\d{6})_(\d{2})_(.*)_(\d{2})\.txt$` against a
whole string (with `$` at the very end). -/
def parseExact (s : Text) : Option SegMeta :=
  (expectC 'I' s).bind fun rI =>
  (expectC 'N' rI).bind fun r0 =>
  (takeDigits 8 r0).bind fun dr =>
  (expectC '_' dr.2).bind fun r2 =>
  (takeDigits 6 r2).bind fun tr =>
  (expectC '_' tr.2).bind fun r4 =>
  (takeDigits 2 r4).bind fun serr =>
  (expectC '_' serr.2).bind fun r6 =>
  (matchEnd r6).map fun se =>
    { date := dr.1, time := tr.1, serial := serr.1, phone := se.1,
      seq := twoDigitVal se.2.1 se.2.2 }

/-- Strip one trailing newline, modelling that Python's `$` anchor also matches
just before a single newline at the end of the string. -/
def stripNL (s : Text) : Text :=
  if s.getLast? = some nl then s.dropLast else s

/-- The `parse_filename` utility from `sdk/sms.py`: match the Gammu filename regex and
return the metadata dict, or `none` when the regex does not match. -/
def parse_filename (s : Text) : Option SegMeta := parseExact (stripNL s)

/-- The spool filename template of the spec:
`IN{date:8}_{time:6}_{serial:2}_{sender}_{sequence:2}.txt`. -/
def templ (d t ser snd q : Text) : Text :=
  ['I', 'N'] ++ d ++ ['_'] ++ t ++ ['_'] ++ ser ++ ['_'] ++ snd ++ ['_'] ++ q
    ++ ['.', 't', 'x', 't']

/-- Modelled from the spec: positional check that a string is literally of the
template shape `IN<8 digits>_<6 digits>_<2 digits>_<sender>_<2 digits>.txt`,
the sender being the (newline-free) middle part. Written by fixed positions,
independently of the sequential matcher above. -/
def specCheck (s : Text) : Bool :=
  decide (28 ≤ s.length) &&
  decide (s.take 2 = ['I', 'N']) &&
  ((s.drop 2).take 8).all isDig &&
  decide ((s.drop 10).take 1 = ['_']) &&
  ((s.drop 11).take 6).all isDig &&
  decide ((s.drop 17).take 1 = ['_']) &&
  ((s.drop 18).take 2).all isDig &&
  decide ((s.drop 20).take 1 = ['_']) &&
  ((s.drop 21).take (s.length - 28)).all (fun c => c != nl) &&
  decide ((s.drop (s.length - 7)).take 1 = ['_']) &&
  ((s.drop (s.length - 6)).take 2).all isDig &&
  decide (s.drop (s.length - 4) = ['.', 't', 'x', 't'])

/-- Render a sequence number back as its two-digit field. -/
def twoDigits (n : Nat) : Text := [Char.ofNat (48 + n / 10), Char.ofNat (48 + n % 10)]

/-- Association-list lookup, modelling Python dict lookup (`key in d`, `d[key]`). -/
def alookup {κ ν : Type} [DecidableEq κ] (k : κ) : List (κ × ν) → Option ν
  | [] => none
  | (k1, v) :: r => if k1 = k then some v else alookup k r

/-- Association-list insert/update, modelling Python `d[key] = v`: an existing
key keeps its position and gets the new value; a new key is appended
at the end (dicts preserve insertion order). -/
def dictInsert {κ ν : Type} [DecidableEq κ] (k : κ) (v : ν) : List (κ × ν) → List (κ × ν)
  | [] => [(k, v)]
  | (k1, v1) :: r => if k1 = k then (k1, v) :: r else (k1, v1) :: dictInsert k v r

/-- Association-list removal, modelling Python `d.pop(key)` (dict keys are unique). -/
def eraseKey {κ ν : Type} [DecidableEq κ] (k : κ) : List (κ × ν) → List (κ × ν)
  | [] => []
  | (k1, v1) :: r => if k1 = k then r else (k1, v1) :: eraseKey k r

/-- Comparison used by `sorted(parts, key=lambda x: x[0])`: by sequence number. -/
def partLe (x y : Nat × Text) : Prop := x.1 ≤ y.1

instance : DecidableRel partLe := fun x y => Nat.decLe x.1 y.1

instance : IsTotal (Nat × Text) partLe := ⟨fun a b => Nat.le_total a.1 b.1⟩

instance : IsTrans (Nat × Text) partLe := ⟨fun _ _ _ hab hbc => Nat.le_trans hab hbc⟩

/-- Strict version of `partLe`, for uniqueness-of-sorted arguments. -/
def partLt (x y : Nat × Text) : Prop := x.1 < y.1

instance : IsAntisymm (Nat × Text) partLt := ⟨fun _ _ h h2 => absurd h2 (Nat.lt_asymm h)⟩

/-- Model of `sorted(data['parts'], key=lambda x: x[0])`: Python's sort is stable, so it is
modelled by the stable insertion sort on the sequence-number order. -/
def sortParts (l : List (Nat × Text)) : List (Nat × Text) := List.insertionSort partLe l

/-- Model of `"".join([p[1] for p in parts])` after sorting: the assembled message text. -/
def assembleText (l : List (Nat × Text)) : Text := ((sortParts l).map Prod.snd).flatten

namespace Sdk

/-- Grouping key of the live reassembly buffer: `(phone, serial)`. -/
abbrev Key := Text × Text

/-- One pending group: `{'parts': [(seq, text)], 'timer': handle}`; the timer
handle is modelled by its numeric id among the loop's scheduled timers. -/
structure Group where
  parts : List (Nat × Text)
  timer : Option Nat
deriving DecidableEq, Repr

/-- A scheduled (live, uncancelled, unfired) `call_later` handle. -/
structure Timer where
  id : Nat
  key : Key
  fireAt : Nat
deriving DecidableEq, Repr

/-- State of the `SMSAssembler` together with its event loop: the keyed buffer,
the live timers, a fresh-handle counter, the loop clock, and the queue of
emitted `(phone, full_text)` messages. -/
structure AsmState where
  buffer : List (Key × Group)
  timers : List Timer
  nextId : Nat
  now : Nat
  queue : List (Text × Text)
deriving DecidableEq, Repr

/-- The debounce window `self.timeout = 5.0` seconds. -/
def timeout : Nat := 5

/-- A freshly constructed assembler on a fresh loop. -/
def initState : AsmState :=
  { buffer := [], timers := [], nextId := 0, now := 0, queue := [] }

/-- The `_flush_buffer` callback: if the key is absent, return; otherwise pop the group,
sort its parts by sequence, join the texts and put `(phone, full_text)` on the
queue. -/
def flush_buffer (k : Key) (s : AsmState) : AsmState :=
  match alookup k s.buffer with
  | none => s
  | some g =>
    { s with buffer := eraseKey k s.buffer,
             queue := s.queue ++ [(k.1, assembleText g.parts)] }

/-- The `add_part` operation: create the group if the key is new, append `(seq, text)`,
cancel the key's existing debounce timer if any, and schedule a fresh timer
`timeout` from now (`loop.call_later`). -/
def add_part (phone serial : Text) (seq : Nat) (text : Text) (s : AsmState) : AsmState :=
  let key : Key := (phone, serial)
  let g := (alookup key s.buffer).getD { parts := [], timer := none }
  let remaining :=
    match g.timer with
    | some tid => s.timers.filter (fun t => t.id ≠ tid)
    | none => s.timers
  { buffer := dictInsert key { parts := g.parts ++ [(seq, text)], timer := some s.nextId }
      s.buffer,
    timers := remaining ++ [{ id := s.nextId, key := key, fireAt := s.now + timeout }],
    nextId := s.nextId + 1,
    now := s.now,
    queue := s.queue }

/-- A scheduled timer firing on the loop: the handle is spent, then the flush
callback runs. -/
def fireTimer (t : Timer) (s : AsmState) : AsmState :=
  flush_buffer t.key { s with timers := s.timers.filter (fun u => u.id ≠ t.id) }

/-- The timers that are due at the current loop time. -/
def dueTimers (s : AsmState) : List Timer :=
  s.timers.filter (fun t => t.fireAt ≤ s.now)

/-- Earliest-deadline timer of a list, ties broken by scheduling order. -/
def minFire : List Timer → Option Timer
  | [] => none
  | t :: ts =>
    match minFire ts with
    | none => some t
    | some u => if u.fireAt < t.fireAt then some u else some t

/-- Run due timer callbacks one at a time (each firing spends one handle, so
the fuel `n` only needs to be the number of live timers). -/
def runDue : Nat → AsmState → AsmState
  | 0, s => s
  | n + 1, s =>
    match minFire (dueTimers s) with
    | none => s
    | some t => runDue n (fireTimer t s)

/-- The event loop advancing `dt` time units and running every callback that
becomes due. -/
def advance (dt : Nat) (s : AsmState) : AsmState :=
  runDue (s.timers.length) { s with now := s.now + dt }

/-- Add a whole list of `(seq, text)` segments for one `(phone, serial)` key,
in arrival order. -/
def addAll (phone serial : Text) (ps : List (Nat × Text)) (s : AsmState) : AsmState :=
  ps.foldl (fun st qt => add_part phone serial qt.1 qt.2 st) s

/-- The live (uncancelled, unfired) timers attached to one key. -/
def timersFor (k : Key) (s : AsmState) : List Timer :=
  s.timers.filter (fun t => t.key = k)

/-- Loop/buffer well-formedness: scheduled handle ids are distinct and below
the fresh counter, and every live timer is the current debounce handle of the
pending group stored under its key. -/
def Inv (s : AsmState) : Prop :=
  (s.timers.map Timer.id).Nodup ∧
  (∀ t ∈ s.timers, t.id < s.nextId) ∧
  (∀ t ∈ s.timers, (alookup t.key s.buffer).map Group.timer = some (some t.id))

instance (s : AsmState) : Decidable (Inv s) := by
  unfold Inv
  infer_instance

/-- Canonical one-pending-group state: one buffered group under `(p, ser)` with
parts `ps` and live handle `i` due at `now + timeout`. -/
def single (p ser : Text) (ps : List (Nat × Text)) (i now : Nat)
    (qu : List (Text × Text)) : AsmState :=
  { buffer := [((p, ser), { parts := ps, timer := some i })],
    timers := [{ id := i, key := (p, ser), fireAt := now + timeout }],
    nextId := i + 1, now := now, queue := qu }

end Sdk

namespace Services

/-- Grouping key of the services-side buffer: `(phone, serial)`. -/
abbrev Key := Text × Text

/-- One pending group of `services/sms.py`'s `SMSAssembler`. -/
structure Group where
  parts : List (Nat × Text)
  timer : Option Nat
deriving DecidableEq, Repr

/-- A live scheduled timer handle of the services-side assembler. -/
structure Timer where
  id : Nat
  key : Key
  fireAt : Nat
deriving DecidableEq, Repr

/-- State of `services/sms.py`'s `SMSAssembler`: buffer, live timers, the fresh
handle counter, the loop clock, whether `set_loop` has run, and the record of
sink deliveries (`bark.send` succeeded) and caught sink failures (logged). -/
structure SvcState where
  buffer : List (Key × Group)
  timers : List Timer
  nextId : Nat
  now : Nat
  loopSet : Bool
  delivered : List (Text × Text)
  failures : List (Text × Text)
deriving DecidableEq, Repr

/-- The debounce window `self.timeout = 5.0` seconds. -/
def timeout : Nat := 5

/-- Duplicate of the Gammu filename matcher: `SMSHandler.FILENAME_PATTERN` is
the same regex literal `^IN(\d{8})_(\d{6})_(\d{2})_(.*)_(\d{2})\.txt$`. -/
def parseFilename (s : Text) : Option SegMeta :=
  (expectC 'I' s).bind fun rI =>
  (expectC 'N' rI).bind fun r0 =>
  (takeDigits 8 r0).bind fun dr =>
  (expectC '_' dr.2).bind fun r2 =>
  (takeDigits 6 r2).bind fun tr =>
  (expectC '_' tr.2).bind fun r4 =>
  (takeDigits 2 r4).bind fun serr =>
  (expectC '_' serr.2).bind fun r6 =>
  (matchEnd r6).map fun se =>
    { date := dr.1, time := tr.1, serial := serr.1, phone := se.1,
      seq := twoDigitVal se.2.1 se.2.2 }

/-- Match against the whole filename (with Python's `$` trailing-newline rule),
then `int(seq_str)`, as in `SMSHandler.on_created`. -/
def handlerParse (s : Text) : Option SegMeta := parseFilename (stripNL s)

/-- Model of `parts.sort(key=lambda x: x[0])` then `"".join(...)`: the services-side
assembled text (an in-place stable sort, modelled like `sorted`). -/
def assemble (l : List (Nat × Text)) : Text :=
  ((List.insertionSort partLe l).map Prod.snd).flatten

/-- Services-side `add_part`: create/append the group, cancel the old handle,
and schedule a new processing timer only when the loop has been provided
(`if self.loop:`); without a loop the group keeps its old (cancelled) handle. -/
def add_part (phone serial : Text) (seq : Nat) (text : Text) (s : SvcState) : SvcState :=
  let key : Key := (phone, serial)
  let g := (alookup key s.buffer).getD { parts := [], timer := none }
  let remaining :=
    match g.timer with
    | some tid => s.timers.filter (fun t => t.id ≠ tid)
    | none => s.timers
  if s.loopSet then
    { s with
      buffer := dictInsert key { parts := g.parts ++ [(seq, text)], timer := some s.nextId }
        s.buffer,
      timers := remaining ++ [{ id := s.nextId, key := key, fireAt := s.now + timeout }],
      nextId := s.nextId + 1 }
  else
    { s with
      buffer := dictInsert key { parts := g.parts ++ [(seq, text)], timer := g.timer } s.buffer,
      timers := remaining }

/-- The `process_buffer` flush: no-op when the key is gone; otherwise pop the group, sort
and join its parts, and attempt `bark.send` — a sink failure is caught inside
the `try`/`except` (recorded in `failures`, logged), so it never propagates and
never restores the popped group. The sink's behaviour is a parameter
(`true` = delivery succeeded, `false` = the sink raised). -/
def process_buffer (sink : Text → Text → Bool) (k : Key) (s : SvcState) : SvcState :=
  match alookup k s.buffer with
  | none => s
  | some g =>
    if sink k.1 (assemble g.parts) then
      { s with buffer := eraseKey k s.buffer,
               delivered := s.delivered ++ [(k.1, assemble g.parts)] }
    else
      { s with buffer := eraseKey k s.buffer,
               failures := s.failures ++ [(k.1, assemble g.parts)] }

end Services

/-- A concrete services-side state with one pending group, for witnesses. -/
def svcOneGroup : Services.SvcState :=
  { buffer := [(("A".toList, "00".toList), { parts := [(0, "x".toList)], timer := some 0 })],
    timers := [], nextId := 1, now := 0, loopSet := true, delivered := [], failures := [] }

/-- The two classes of `OSError` relevant to `os.makedirs`: `PermissionError`
(a subclass) versus any other `OSError` (e.g. a read-only filesystem). -/
inductive OSErr where
  | permission
  | other
deriving DecidableEq, Repr

/-- The environment a startup run observes: whether the spool directory
exists, how `os.makedirs` would end (`none` = success), whether the
read/write access check passes, and whether a running event loop is
available. -/
structure StartEnv where
  dirExists : Bool
  makedirsResult : Option OSErr
  accessOk : Bool
  loopAvailable : Bool
deriving DecidableEq, Repr

/-- How a startup call ends when it returns: inert (watcher never started) or
with the observer started. -/
inductive StartOutcome where
  | inert
  | running
deriving DecidableEq, Repr

/-- Startup `SMSService.start` of `services/sms.py`, paired with the number of
directory-creation attempts: if the directory is missing it calls
`os.makedirs` once, catching ONLY `PermissionError` (returning inert); any
other `OSError` propagates out of `start` (`Except.error`). Then the access
check and the running-loop lookup each degrade to inert, and otherwise the
watcher starts. -/
def serviceStart (e : StartEnv) : Except OSErr StartOutcome × Nat :=
  let rest : Except OSErr StartOutcome :=
    if e.accessOk then
      (if e.loopAvailable then Except.ok StartOutcome.running
       else Except.ok StartOutcome.inert)
    else Except.ok StartOutcome.inert
  if e.dirExists then
    (rest, 0)
  else
    match e.makedirsResult with
    | some OSErr.permission => (Except.ok StartOutcome.inert, 1)
    | some OSErr.other => (Except.error OSErr.other, 1)
    | none => (rest, 1)

/-- The startup part of `monitor_inbox` in `sdk/sms.py`, paired with the
number of directory-creation attempts: one `os.makedirs` if missing, and the
`except OSError` catches every creation failure (the generator returns, so the
watcher never starts); on success the observer is started. -/
def monitorStart (e : StartEnv) : Except OSErr StartOutcome × Nat :=
  if e.dirExists then
    (Except.ok StartOutcome.running, 0)
  else
    match e.makedirsResult with
    | some _ => (Except.ok StartOutcome.inert, 1)
    | none => (Except.ok StartOutcome.running, 1)

/-- A missing directory whose creation fails with a non-permission `OSError`. -/
def envOther : StartEnv :=
  { dirExists := false, makedirsResult := some OSErr.other, accessOk := true,
    loopAvailable := true }

/-- A missing directory whose creation fails with a `PermissionError`. -/
def envPerm : StartEnv :=
  { dirExists := false, makedirsResult := some OSErr.permission, accessOk := true,
    loopAvailable := true }

/-- Display timestamp, `f"{d[:4]}-{d[4:6]}-{d[6:]} {t[:2]}:{t[2:4]}:{t[4:]}"`. -/
def tsOf (d t : Text) : Text :=
  d.take 4 ++ '-' :: (d.drop 4).take 2 ++ '-' :: d.drop 6
    ++ ' ' :: t.take 2 ++ ':' :: (t.drop 2).take 2 ++ ':' :: t.drop 4

/-- One scanned inbox message, `{"ts": ..., "sender": ..., "text": ...}`. -/
structure Msg where
  ts : Text
  sender : Text
  text : Text
deriving DecidableEq, Repr

/-- The scanner's grouping key `(date, time, phone, serial)` — finer than the
live buffer's key. -/
abbrev GKey := Text × Text × Text × Text

/-- Python string comparison (lexicographic by code point), as a Boolean
less-or-equal; used by `sorted(..., key=lambda x: x["ts"], ...)`. -/
def strLe : Text → Text → Bool
  | [], _ => true
  | _ :: _, [] => false
  | a :: as, b :: bs => if a.toNat = b.toNat then strLe as bs else decide (a.toNat < b.toNat)

/-- Sort order of the scan result: descending by timestamp
(`sorted(..., reverse=True)` — a stable descending sort). -/
def msgLe (x y : Msg) : Prop := strLe y.ts x.ts = true

instance : DecidableRel msgLe := fun x y => by unfold msgLe; infer_instance

/-- Model of `messages_map[key][seq] = content`: two-level dict insert (creating the
inner dict when the group key is new). -/
def mapInsert (k : GKey) (q : Nat) (c : Text) (m : List (GKey × List (Nat × Text))) :
    List (GKey × List (Nat × Text)) :=
  match alookup k m with
  | none => m ++ [(k, [(q, c)])]
  | some ps => dictInsert k (dictInsert q c ps) m

/-- One step of the scan loop: parse the filename; unparseable names are
skipped; otherwise file the content under `(date, time, phone, serial)` and
`seq`. -/
def scanStep (m : List (GKey × List (Nat × Text))) (f : Text × Text) :
    List (GKey × List (Nat × Text)) :=
  match parse_filename f.1 with
  | none => m
  | some meta => mapInsert (meta.date, meta.time, meta.phone, meta.serial) meta.seq f.2 m

/-- The grouping pass of `get_inbox_messages` over the directory listing
(given as `(filename, content)` pairs — per-file reads that fail are skipped
by the code and simply absent from the listing). -/
def buildMap (files : List (Text × Text)) : List (GKey × List (Nat × Text)) :=
  files.foldl scanStep []

/-- The scanner `get_inbox_messages(limit)`: group the listing, assemble each group's text
from its parts sorted by sequence, attach the display timestamp and sender,
sort newest-first (stable descending by timestamp), and truncate to `limit`. -/
def get_inbox_messages (limit : Nat) (files : List (Text × Text)) : List Msg :=
  (List.insertionSort msgLe ((buildMap files).map (fun kp =>
    { ts := tsOf kp.1.1 kp.1.2.1, sender := kp.1.2.2.1, text := assembleText kp.2 }))).take
    limit

/-- Example listing: 12 well-formed two-part messages (one per January day,
newest = day 12) and 3 garbage files. -/
def exampleFiles : List (Text × Text) :=
  [
    ("IN20250101_120000_07_777_00.txt".toList, "u".toList),
    ("IN20250101_120000_07_777_01.txt".toList, "v".toList),
    ("IN20250102_120000_07_777_00.txt".toList, "u".toList),
    ("IN20250102_120000_07_777_01.txt".toList, "v".toList),
    ("IN20250103_120000_07_777_00.txt".toList, "u".toList),
    ("IN20250103_120000_07_777_01.txt".toList, "v".toList),
    ("IN20250104_120000_07_777_00.txt".toList, "u".toList),
    ("IN20250104_120000_07_777_01.txt".toList, "v".toList),
    ("IN20250105_120000_07_777_00.txt".toList, "u".toList),
    ("IN20250105_120000_07_777_01.txt".toList, "v".toList),
    ("IN20250106_120000_07_777_00.txt".toList, "u".toList),
    ("IN20250106_120000_07_777_01.txt".toList, "v".toList),
    ("IN20250107_120000_07_777_00.txt".toList, "u".toList),
    ("IN20250107_120000_07_777_01.txt".toList, "v".toList),
    ("IN20250108_120000_07_777_00.txt".toList, "u".toList),
    ("IN20250108_120000_07_777_01.txt".toList, "v".toList),
    ("IN20250109_120000_07_777_00.txt".toList, "u".toList),
    ("IN20250109_120000_07_777_01.txt".toList, "v".toList),
    ("IN20250110_120000_07_777_00.txt".toList, "u".toList),
    ("IN20250110_120000_07_777_01.txt".toList, "v".toList),
    ("IN20250111_120000_07_777_00.txt".toList, "u".toList),
    ("IN20250111_120000_07_777_01.txt".toList, "v".toList),
    ("IN20250112_120000_07_777_00.txt".toList, "u".toList),
    ("IN20250112_120000_07_777_01.txt".toList, "v".toList),
    ("OUT20250101_120000_07_777_00.txt".toList, "g1".toList),
    ("notes.txt".toList, "g2".toList),
    ("IN2025_bad.txt".toList, "g3".toList)
  ]

example : parse_filename ("IN20251210_001000_00_123456789_00.txt".toList) =
    some { date := "20251210".toList, time := "001000".toList, serial := "00".toList,
           phone := "123456789".toList, seq := 0 } := by decide

example : parse_filename ("OUT20251210_001000_00_123456789_00.txt".toList) = none := by decide

example : parse_filename ("IN20251210_001000_00_123456789_00.txt\n".toList) ≠ none := by decide

example : specCheck ("IN20251210_001000_00_123456789_00.txt".toList) = true := by decide

example : specCheck ("IN20251210_001000_00_123456789_00.txt\n".toList) = false := by decide

lemma expectC_cons_self {c : Char} {r : Text} : expectC c (c :: r) = some r := by
  simp [expectC]

lemma expectC_eq_some {c : Char} {s r : Text} : expectC c s = some r ↔ s = c :: r := by
  cases s with
  | nil => simp [expectC]
  | cons d ds =>
    simp only [expectC]
    by_cases h : d = c
    · subst h; simp
    · simp [h]

lemma takeDigits_eq_some : ∀ {n : Nat} {s d r : Text}, takeDigits n s = some (d, r) →
    s = d ++ r ∧ d.length = n ∧ d.all isDig = true := by
  intro n
  induction n with
  | zero =>
    intro s d r h
    simp only [takeDigits, Option.some.injEq, Prod.mk.injEq] at h
    obtain ⟨h1, h2⟩ := h
    subst h1; subst h2; simp
  | succ n ih =>
    intro s d r h
    cases s with
    | nil => simp [takeDigits] at h
    | cons c cs =>
      simp only [takeDigits] at h
      by_cases hc : isDig c
      · rw [if_pos hc] at h
        simp only [Option.map_eq_some'] at h
        obtain ⟨⟨d1, r1⟩, h1, h2⟩ := h
        simp only [Prod.mk.injEq] at h2
        obtain ⟨hd, hr⟩ := h2
        obtain ⟨hcs, hlen, hall⟩ := ih h1
        subst hd; subst hr; subst hcs
        refine ⟨rfl, by simp [hlen], ?_⟩
        simp [List.all_cons, hc, hall]
      · rw [if_neg hc] at h
        simp at h

lemma takeDigits_append : ∀ {d r : Text}, d.all isDig = true →
    takeDigits d.length (d ++ r) = some (d, r) := by
  intro d
  induction d with
  | nil => intro r _; simp [takeDigits]
  | cons c cs ih =>
    intro r hall
    simp only [List.all_cons, Bool.and_eq_true] at hall
    simp [takeDigits, hall.1, ih hall.2]

lemma matchEnd_eq_some {r snd : Text} {a b : Char} (h : matchEnd r = some (snd, a, b)) :
    r = snd ++ ['_', a, b, '.', 't', 'x', 't'] ∧ isDig a = true ∧ isDig b = true ∧
      snd.all (fun c => c != nl) = true := by
  unfold matchEnd at h
  split at h
  case _ u a1 b1 p t1 x1 t2 heq =>
    split at h
    case isTrue hcond =>
      obtain ⟨hu, hp, ht1, hx1, ht2, ha1, hb1, hall⟩ := hcond
      simp only [Option.some.injEq, Prod.mk.injEq] at h
      obtain ⟨hs, ha, hb⟩ := h
      subst hu; subst hp; subst ht1; subst hx1; subst ht2
      subst hs; subst ha; subst hb
      refine ⟨?_, ha1, hb1, hall⟩
      conv_lhs => rw [← List.take_append_drop (r.length - 7) r]
      rw [heq]
    case isFalse => exact absurd h (by simp)
  case _ => exact absurd h (by simp)

lemma matchEnd_append {snd : Text} {a b : Char} (ha : isDig a = true) (hb : isDig b = true)
    (hs : snd.all (fun c => c != nl) = true) :
    matchEnd (snd ++ ['_', a, b, '.', 't', 'x', 't']) = some (snd, a, b) := by
  have hlen : (snd ++ ['_', a, b, '.', 't', 'x', 't']).length = snd.length + 7 := by
    simp
  have hk : (snd ++ ['_', a, b, '.', 't', 'x', 't']).length - 7 = snd.length := by
    rw [hlen]; omega
  unfold matchEnd
  rw [hk, List.drop_left' rfl, List.take_left' rfl]
  simp [ha, hb, hs]

example : matchEnd ("abc_12.txt".toList) = some ("abc".toList, '1', '2') := by decide

lemma parseExact_eq_some {s : Text} {m : SegMeta} (h : parseExact s = some m) :
    ∃ a b, s = templ m.date m.time m.serial m.phone [a, b] ∧
      m.date.length = 8 ∧ m.date.all isDig = true ∧
      m.time.length = 6 ∧ m.time.all isDig = true ∧
      m.serial.length = 2 ∧ m.serial.all isDig = true ∧
      m.phone.all (fun c => c != nl) = true ∧
      isDig a = true ∧ isDig b = true ∧ m.seq = twoDigitVal a b := by
  simp only [parseExact, Option.bind_eq_some, Option.map_eq_some'] at h
  obtain ⟨rI, hI, r0, hN, ⟨d, r1⟩, hD, r2, h2, ⟨t, r3⟩, hT, r4, h4, ⟨ser, r5⟩, hS,
    r6, h6, ⟨snd, a, b⟩, hE, hm⟩ := h
  rw [expectC_eq_some] at hI hN h2 h4 h6
  obtain ⟨hr0, hd8, hdD⟩ := takeDigits_eq_some hD
  obtain ⟨hr2, ht6, htD⟩ := takeDigits_eq_some hT
  obtain ⟨hr4, hs2, hsD⟩ := takeDigits_eq_some hS
  obtain ⟨hr6, ha, hb, hsnd⟩ := matchEnd_eq_some hE
  subst hm
  refine ⟨a, b, ?_, hd8, hdD, ht6, htD, hs2, hsD, hsnd, ha, hb, rfl⟩
  subst hI hN hr0 h2 hr2 h4 hr4 h6 hr6
  simp [templ]

lemma parseExact_templ {d t ser snd : Text} {a b : Char}
    (hd8 : d.length = 8) (hdD : d.all isDig = true)
    (ht6 : t.length = 6) (htD : t.all isDig = true)
    (hs2 : ser.length = 2) (hsD : ser.all isDig = true)
    (hsnd : snd.all (fun c => c != nl) = true)
    (ha : isDig a = true) (hb : isDig b = true) :
    parseExact (templ d t ser snd [a, b]) =
      some { date := d, time := t, serial := ser, phone := snd, seq := twoDigitVal a b } := by
  have e : templ d t ser snd [a, b] =
      'I' :: 'N' :: (d ++ '_' :: (t ++ '_' :: (ser ++ '_' ::
        (snd ++ ['_', a, b, '.', 't', 'x', 't'])))) := by
    simp [templ]
  rw [e]
  simp only [parseExact, expectC_cons_self, Option.some_bind]
  rw [← hd8, takeDigits_append hdD]
  simp only [Option.some_bind, expectC_cons_self]
  rw [← ht6, takeDigits_append htD]
  simp only [Option.some_bind, expectC_cons_self]
  rw [← hs2, takeDigits_append hsD]
  simp only [Option.some_bind, expectC_cons_self]
  rw [matchEnd_append ha hb hsnd]
  rfl

lemma stripNL_templ (d t ser snd q : Text) : stripNL (templ d t ser snd q) = templ d t ser snd q := by
  unfold stripNL
  have e : templ d t ser snd q =
      (['I', 'N'] ++ d ++ ['_'] ++ t ++ ['_'] ++ ser ++ ['_'] ++ snd ++ ['_'] ++ q
        ++ ['.', 't', 'x']) ++ ['t'] := by
    simp [templ]
  have h : (templ d t ser snd q).getLast? = some 't' := by
    rw [e, List.getLast?_concat]
  rw [h]
  simp [nl]

lemma twoDigits_twoDigitVal {a b : Char} (ha : isDig a = true) (hb : isDig b = true) :
    twoDigits (twoDigitVal a b) = [a, b] := by
  simp only [isDig, decide_eq_true_eq] at ha hb
  unfold twoDigits twoDigitVal
  have h1 : ((a.toNat - 48) * 10 + (b.toNat - 48)) / 10 = a.toNat - 48 := by omega
  have h2 : ((a.toNat - 48) * 10 + (b.toNat - 48)) % 10 = b.toNat - 48 := by omega
  rw [h1, h2]
  have ha2 : 48 + (a.toNat - 48) = a.toNat := by omega
  have hb2 : 48 + (b.toNat - 48) = b.toNat := by omega
  rw [ha2, hb2, Char.ofNat_toNat, Char.ofNat_toNat]

lemma specCheck_templ {d t ser snd : Text} {a b : Char}
    (hd8 : d.length = 8) (hdD : d.all isDig = true)
    (ht6 : t.length = 6) (htD : t.all isDig = true)
    (hs2 : ser.length = 2) (hsD : ser.all isDig = true)
    (hsnd : snd.all (fun c => c != nl) = true)
    (ha : isDig a = true) (hb : isDig b = true) :
    specCheck (templ d t ser snd [a, b]) = true := by
  have hlen : (templ d t ser snd [a, b]).length = snd.length + 28 := by
    simp [templ, hd8, ht6, hs2]
    omega
  have e2 : templ d t ser snd [a, b] = (['I', 'N'] : Text) ++
      (d ++ '_' :: (t ++ '_' :: (ser ++ '_' :: (snd ++ ['_', a, b, '.', 't', 'x', 't'])))) := by
    simp [templ]
  have e10 : templ d t ser snd [a, b] = (['I', 'N'] ++ d) ++
      ('_' :: (t ++ '_' :: (ser ++ '_' :: (snd ++ ['_', a, b, '.', 't', 'x', 't'])))) := by
    simp [templ]
  have e11 : templ d t ser snd [a, b] = (['I', 'N'] ++ d ++ ['_']) ++
      (t ++ '_' :: (ser ++ '_' :: (snd ++ ['_', a, b, '.', 't', 'x', 't']))) := by
    simp [templ]
  have e17 : templ d t ser snd [a, b] = (['I', 'N'] ++ d ++ ['_'] ++ t) ++
      ('_' :: (ser ++ '_' :: (snd ++ ['_', a, b, '.', 't', 'x', 't']))) := by
    simp [templ]
  have e18 : templ d t ser snd [a, b] = (['I', 'N'] ++ d ++ ['_'] ++ t ++ ['_']) ++
      (ser ++ '_' :: (snd ++ ['_', a, b, '.', 't', 'x', 't'])) := by
    simp [templ]
  have e20 : templ d t ser snd [a, b] = (['I', 'N'] ++ d ++ ['_'] ++ t ++ ['_'] ++ ser) ++
      ('_' :: (snd ++ ['_', a, b, '.', 't', 'x', 't'])) := by
    simp [templ]
  have e21 : templ d t ser snd [a, b] = (['I', 'N'] ++ d ++ ['_'] ++ t ++ ['_'] ++ ser ++ ['_']) ++
      (snd ++ ['_', a, b, '.', 't', 'x', 't']) := by
    simp [templ]
  have e7 : templ d t ser snd [a, b] =
      (['I', 'N'] ++ d ++ ['_'] ++ t ++ ['_'] ++ ser ++ ['_'] ++ snd) ++
      ('_' :: ([a, b] ++ ['.', 't', 'x', 't'])) := by
    simp [templ]
  have e6 : templ d t ser snd [a, b] =
      (['I', 'N'] ++ d ++ ['_'] ++ t ++ ['_'] ++ ser ++ ['_'] ++ snd ++ ['_']) ++
      ([a, b] ++ ['.', 't', 'x', 't']) := by
    simp [templ]
  have e4 : templ d t ser snd [a, b] =
      (['I', 'N'] ++ d ++ ['_'] ++ t ++ ['_'] ++ ser ++ ['_'] ++ snd ++ ['_'] ++ [a, b]) ++
      ['.', 't', 'x', 't'] := by
    simp [templ]
  have h1 : 28 ≤ (templ d t ser snd [a, b]).length := by rw [hlen]; omega
  have h2 : (templ d t ser snd [a, b]).take 2 = ['I', 'N'] := by
    rw [e2]; exact List.take_left' rfl
  have h3 : (((templ d t ser snd [a, b]).drop 2).take 8).all isDig = true := by
    rw [e2, List.drop_left' (show (['I', 'N'] : Text).length = 2 from rfl),
      List.take_left' hd8]
    exact hdD
  have h4 : ((templ d t ser snd [a, b]).drop 10).take 1 = ['_'] := by
    rw [e10, List.drop_left' (by simp [hd8])]; rfl
  have h5 : (((templ d t ser snd [a, b]).drop 11).take 6).all isDig = true := by
    rw [e11, List.drop_left' (by simp [hd8]), List.take_left' ht6]; exact htD
  have h6 : ((templ d t ser snd [a, b]).drop 17).take 1 = ['_'] := by
    rw [e17, List.drop_left' (by simp [hd8, ht6])]; rfl
  have h7 : (((templ d t ser snd [a, b]).drop 18).take 2).all isDig = true := by
    rw [e18, List.drop_left' (by simp [hd8, ht6]), List.take_left' hs2]; exact hsD
  have h8 : ((templ d t ser snd [a, b]).drop 20).take 1 = ['_'] := by
    rw [e20, List.drop_left' (by simp [hd8, ht6, hs2])]; rfl
  have h9 : (((templ d t ser snd [a, b]).drop 21).take
      ((templ d t ser snd [a, b]).length - 28)).all (fun c => c != nl) = true := by
    rw [hlen, e21, List.drop_left' (by simp [hd8, ht6, hs2]),
      List.take_left' (by omega)]
    exact hsnd
  have h10 : ((templ d t ser snd [a, b]).drop ((templ d t ser snd [a, b]).length - 7)).take 1
      = ['_'] := by
    rw [hlen, e7, List.drop_left' (by simp [hd8, ht6, hs2]; omega)]; rfl
  have h11 : (((templ d t ser snd [a, b]).drop ((templ d t ser snd [a, b]).length - 6)).take 2).all
      isDig = true := by
    rw [hlen, e6, List.drop_left' (by simp [hd8, ht6, hs2]; omega)]
    simp [ha, hb]
  have h12 : (templ d t ser snd [a, b]).drop ((templ d t ser snd [a, b]).length - 4)
      = ['.', 't', 'x', 't'] := by
    rw [hlen, e4, List.drop_left' (by simp [hd8, ht6, hs2]; omega)]
  simp only [specCheck, Bool.and_eq_true, decide_eq_true_eq]
  exact ⟨⟨⟨⟨⟨⟨⟨⟨⟨⟨⟨h1, h2⟩, h3⟩, h4⟩, h5⟩, h6⟩, h7⟩, h8⟩, h9⟩, h10⟩, h11⟩, h12⟩

/-- C2 (counterexample): the claim says `parse` returns `none` for every filename
string that does not match the fixed pattern (e.g. one missing the `.txt`
suffix). The string `"IN20251210_001000_00_123456789_00.txt\n"` does not match
the template (it ends in a newline, not in `.txt`), yet `parse_filename`
returns a value, because Python's `$` anchor also matches just before one
trailing newline. -/
theorem C2_counterexample_trailing_newline :
    specCheck ("IN20251210_001000_00_123456789_00.txt\n".toList) = false ∧
    parse_filename ("IN20251210_001000_00_123456789_00.txt\n".toList) ≠ none := by
  constructor
  · decide
  · decide

/-- C2 (amended): for every filename string that does not match the fixed
pattern `IN<8-digit date>_<6-digit time>_<2-digit serial>_<sender>_<2-digit
sequence>.txt` even after removing one trailing newline (Python's `$` accepts
a match followed by one trailing newline), `parse` returns `none`; `parse` is
a total function, so it never raises for any input string. -/
theorem C2_parse_none_of_not_pattern (s : Text) (h : specCheck (stripNL s) = false) :
    parse_filename s = none := by
  cases hp : parse_filename s with
  | none => rfl
  | some m =>
    exfalso
    have hx : parseExact (stripNL s) = some m := hp
    obtain ⟨a, b, he, h8, hD8, h6, hD6, h2, hD2, hsnd, ha, hb, _⟩ := parseExact_eq_some hx
    rw [he, specCheck_templ h8 hD8 h6 hD6 h2 hD2 hsnd ha hb] at h
    exact Bool.true_eq_false ▸ h

/-- C2 witness: an `OUT`-prefixed name is rejected by the pattern and `parse`
returns `none` on it. -/
theorem C2_witness :
    specCheck (stripNL ("OUT20250101_000000_00_5551234_00.txt".toList)) = false ∧
    parse_filename ("OUT20250101_000000_00_5551234_00.txt".toList) = none :=
  ⟨by decide, C2_parse_none_of_not_pattern ("OUT20250101_000000_00_5551234_00.txt".toList)
    (by decide)⟩

/-- C3: for every filename built from the spool naming template — 8-digit date,
6-digit time, 2-digit serial, arbitrary newline-free sender (the greedy middle
capture, possibly containing underscores), 2-digit sequence — `parse` succeeds
with exactly those fields, and re-inserting the parsed date, time, serial,
sender and two-digit sequence into the template reproduces the original
filename character for character. -/
theorem C3_parse_filename_roundtrip (d t ser snd : Text) (a b : Char)
    (hd8 : d.length = 8) (hdD : d.all isDig = true)
    (ht6 : t.length = 6) (htD : t.all isDig = true)
    (hs2 : ser.length = 2) (hsD : ser.all isDig = true)
    (hsnd : snd.all (fun c => c != nl) = true)
    (ha : isDig a = true) (hb : isDig b = true) :
    parse_filename (templ d t ser snd [a, b]) =
      some { date := d, time := t, serial := ser, phone := snd, seq := twoDigitVal a b } ∧
    templ d t ser snd (twoDigits (twoDigitVal a b)) = templ d t ser snd [a, b] := by
  constructor
  · unfold parse_filename
    rw [stripNL_templ]
    exact parseExact_templ hd8 hdD ht6 htD hs2 hsD hsnd ha hb
  · rw [twoDigits_twoDigitVal ha hb]

/-- C3 witness: round-trip at a concrete filename with an underscore in the
sender field. -/
theorem C3_witness :
    parse_filename (templ "20251210".toList "001000".toList "07".toList "555_99".toList
        ['1', '2']) =
      some { date := "20251210".toList, time := "001000".toList, serial := "07".toList,
             phone := "555_99".toList, seq := twoDigitVal '1' '2' } ∧
    templ "20251210".toList "001000".toList "07".toList "555_99".toList
        (twoDigits (twoDigitVal '1' '2')) =
      templ "20251210".toList "001000".toList "07".toList "555_99".toList ['1', '2'] :=
  C3_parse_filename_roundtrip "20251210".toList "001000".toList "07".toList "555_99".toList
    '1' '2' (by decide) (by decide) (by decide) (by decide) (by decide) (by decide)
    (by decide) (by decide) (by decide)

lemma alookup_dictInsert_self {κ ν : Type} [DecidableEq κ] (k : κ) (v : ν)
    (m : List (κ × ν)) : alookup k (dictInsert k v m) = some v := by
  induction m with
  | nil => simp [dictInsert, alookup]
  | cons p r ih =>
    obtain ⟨k1, v1⟩ := p
    by_cases h : k1 = k
    · subst h; simp [dictInsert, alookup]
    · simp [dictInsert, alookup, h, ih]

lemma alookup_eq_none_of_not_mem {κ ν : Type} [DecidableEq κ] {k : κ} {m : List (κ × ν)}
    (h : k ∉ m.map Prod.fst) : alookup k m = none := by
  induction m with
  | nil => rfl
  | cons p r ih =>
    obtain ⟨k1, v1⟩ := p
    simp only [List.map_cons, List.mem_cons, not_or] at h
    rw [alookup, if_neg (fun he => h.1 he.symm)]
    exact ih h.2

lemma alookup_dictInsert_ne {κ ν : Type} [DecidableEq κ] {k k2 : κ} (v : ν)
    (m : List (κ × ν)) (h : k2 ≠ k) : alookup k2 (dictInsert k v m) = alookup k2 m := by
  have h2 : ¬k = k2 := fun he => h he.symm
  induction m with
  | nil => simp [dictInsert, alookup, h2]
  | cons p r ih =>
    obtain ⟨k1, v1⟩ := p
    by_cases h1 : k1 = k
    · simp [dictInsert, alookup, h1, h2, h]
    · by_cases h3 : k1 = k2
      · simp [dictInsert, alookup, h1, h3, h, h2]
      · simp [dictInsert, alookup, h1, h3, ih]

lemma alookup_eraseKey_ne {κ ν : Type} [DecidableEq κ] {k k2 : κ}
    (m : List (κ × ν)) (h : k2 ≠ k) : alookup k2 (eraseKey k m) = alookup k2 m := by
  have h2 : ¬k = k2 := fun he => h he.symm
  induction m with
  | nil => simp [eraseKey]
  | cons p r ih =>
    obtain ⟨k1, v1⟩ := p
    by_cases h1 : k1 = k
    · have h3 : ¬k1 = k2 := by rw [h1]; exact fun he => h he.symm
      simp [eraseKey, alookup, h1, h3, h2]
    · by_cases h3 : k1 = k2
      · simp [eraseKey, alookup, h1, h3, h, h2]
      · simp [eraseKey, alookup, h1, h3, ih]

lemma alookup_eraseKey_self {κ ν : Type} [DecidableEq κ] (k : κ)
    (m : List (κ × ν)) (hnd : (m.map Prod.fst).Nodup) :
    alookup k (eraseKey k m) = none := by
  induction m with
  | nil => rfl
  | cons p r ih =>
    obtain ⟨k1, v1⟩ := p
    simp only [List.map_cons, List.nodup_cons] at hnd
    by_cases h1 : k1 = k
    · rw [eraseKey, if_pos h1]
      apply alookup_eq_none_of_not_mem
      rw [← h1]
      exact hnd.1
    · rw [eraseKey, if_neg h1, alookup, if_neg h1]
      exact ih hnd.2

lemma alookup_eq_some_mem {κ ν : Type} [DecidableEq κ] {k : κ} {v : ν}
    {m : List (κ × ν)} (h : alookup k m = some v) : (k, v) ∈ m := by
  induction m with
  | nil => simp [alookup] at h
  | cons p r ih =>
    obtain ⟨k1, v1⟩ := p
    by_cases h1 : k1 = k
    · subst h1
      rw [alookup, if_pos rfl, Option.some.injEq] at h
      subst h
      exact List.mem_cons_self _ _
    · rw [alookup, if_neg h1] at h
      exact List.mem_cons_of_mem _ (ih h)

lemma sortParts_perm (l : List (Nat × Text)) : List.Perm (sortParts l) l :=
  List.perm_insertionSort partLe l

lemma sortParts_sorted (l : List (Nat × Text)) : List.Sorted partLe (sortParts l) :=
  List.sorted_insertionSort partLe l

lemma sorted_strict_of_nodup {l : List (Nat × Text)} (hs : List.Sorted partLe l)
    (hnd : (l.map Prod.fst).Nodup) : List.Sorted partLt l := by
  have hne : l.Pairwise (fun a b => a.1 ≠ b.1) := List.pairwise_map.mp hnd
  exact (hs.and hne).imp (fun h => Nat.lt_of_le_of_ne h.1 h.2)

lemma sortParts_eq_of_perm {l1 l2 : List (Nat × Text)} (hp : List.Perm l1 l2)
    (hnd : (l1.map Prod.fst).Nodup) : sortParts l1 = sortParts l2 := by
  have hnd1 : ((sortParts l1).map Prod.fst).Nodup :=
    (((sortParts_perm l1).map Prod.fst).nodup_iff).mpr hnd
  have hnd2 : ((sortParts l2).map Prod.fst).Nodup :=
    (((sortParts_perm l2).map Prod.fst).nodup_iff).mpr
      (((hp.map Prod.fst).nodup_iff).mp hnd)
  have hperm : List.Perm (sortParts l1) (sortParts l2) :=
    (sortParts_perm l1).trans (hp.trans (sortParts_perm l2).symm)
  exact List.eq_of_perm_of_sorted hperm
    (sorted_strict_of_nodup (sortParts_sorted l1) hnd1)
    (sorted_strict_of_nodup (sortParts_sorted l2) hnd2)

lemma assembleText_eq_of_perm {l1 l2 : List (Nat × Text)} (hp : List.Perm l1 l2)
    (hnd : (l1.map Prod.fst).Nodup) : assembleText l1 = assembleText l2 := by
  unfold assembleText
  rw [sortParts_eq_of_perm hp hnd]

example : assembleText [(1, "Hello ".toList), (0, "World: ".toList)] =
    "World: Hello ".toList := by decide

namespace Sdk

lemma minFire_mem : ∀ {l : List Timer} {t : Timer}, minFire l = some t → t ∈ l := by
  intro l
  induction l with
  | nil => intro t h; simp [minFire] at h
  | cons a ts ih =>
    intro t h
    rw [minFire] at h
    cases hm : minFire ts with
    | none =>
      rw [hm] at h
      simp only [Option.some.injEq] at h
      subst h
      exact List.mem_cons_self _ _
    | some u =>
      rw [hm] at h
      dsimp only at h
      by_cases hc : u.fireAt < a.fireAt
      · rw [if_pos hc] at h
        simp only [Option.some.injEq] at h
        subst h
        exact List.mem_cons_of_mem _ (ih hm)
      · rw [if_neg hc] at h
        simp only [Option.some.injEq] at h
        subst h
        exact List.mem_cons_self _ _

lemma ids_nodup_length_le_one {l : List Timer}
    (hnd : (l.map Timer.id).Nodup) (hsame : ∀ t ∈ l, ∀ u ∈ l, t.id = u.id) :
    l.length ≤ 1 := by
  match l with
  | [] => simp
  | [a] => simp
  | a :: b :: r =>
    exfalso
    have hab : a.id = b.id :=
      hsame a (List.mem_cons_self _ _) b (List.mem_cons_of_mem _ (List.mem_cons_self _ _))
    simp only [List.map_cons, List.nodup_cons, List.mem_cons, not_or] at hnd
    exact hnd.1.1 hab

lemma timersFor_le_one {s : AsmState} (h : Inv s) (k : Key) :
    (timersFor k s).length ≤ 1 := by
  obtain ⟨hnd, _, h3⟩ := h
  apply ids_nodup_length_le_one
  · exact ((List.filter_sublist _).map Timer.id).nodup hnd
  · intro t ht u hu
    simp only [timersFor, List.mem_filter] at ht hu
    have hk1 : t.key = k := of_decide_eq_true ht.2
    have hk2 : u.key = k := of_decide_eq_true hu.2
    have e1 := h3 t ht.1
    have e2 := h3 u hu.1
    rw [hk1] at e1
    rw [hk2] at e2
    rw [e1] at e2
    simp only [Option.some.injEq] at e2
    exact e2

lemma inv_add_part {s : AsmState} (h : Inv s) (p ser : Text) (q : Nat) (txt : Text) :
    Inv (add_part p ser q txt s) ∧
    timersFor (p, ser) (add_part p ser q txt s) =
      [{ id := s.nextId, key := (p, ser), fireAt := s.now + timeout }] := by
  obtain ⟨hnd, hlt, h3⟩ := h
  set key : Key := (p, ser) with hkey
  set newT : Timer := { id := s.nextId, key := key, fireAt := s.now + timeout } with hnewT
  set g0 : Group := (alookup key s.buffer).getD { parts := [], timer := none } with hg0
  set L : List Timer := (match g0.timer with
    | some tid => s.timers.filter (fun t => t.id ≠ tid)
    | none => s.timers) with hL
  have htimers : (add_part p ser q txt s).timers = L ++ [newT] := rfl
  have hbuffer : (add_part p ser q txt s).buffer =
      dictInsert key { parts := g0.parts ++ [(q, txt)], timer := some s.nextId } s.buffer := rfl
  have hnext : (add_part p ser q txt s).nextId = s.nextId + 1 := rfl
  have hLsublist : L.Sublist s.timers := by
    rw [hL]
    cases g0.timer with
    | some tid => exact List.filter_sublist _
    | none => exact List.Sublist.refl _
  have hLsub : ∀ t ∈ L, t ∈ s.timers := fun t ht => hLsublist.mem ht
  have hLkey : ∀ t ∈ L, t.key ≠ key := by
    intro t ht hk
    have htm := h3 t (hLsub t ht)
    rw [hk] at htm
    cases hak : alookup key s.buffer with
    | none => rw [hak] at htm; simp at htm
    | some g1 =>
      rw [hak] at htm
      have hg1t : g1.timer = some t.id := by
        simpa using htm
      have hg0g1 : g0 = g1 := by rw [hg0, hak]; rfl
      rw [hL, hg0g1, hg1t] at ht
      dsimp only at ht
      have hne := (List.mem_filter.mp ht).2
      simp at hne
  have hNodup2 : ((L ++ [newT]).map Timer.id).Nodup := by
    rw [List.map_append, List.nodup_append]
    refine ⟨(hLsublist.map Timer.id).nodup hnd, by simp, ?_⟩
    intro a haL hanew
    simp only [List.map_cons, List.map_nil, List.mem_cons, List.not_mem_nil, or_false] at hanew
    simp only [List.mem_map] at haL
    obtain ⟨t, htL, hta⟩ := haL
    have := hlt t (hLsub t htL)
    rw [hta, hanew] at this
    omega
  refine ⟨⟨by rw [htimers]; exact hNodup2, ?_, ?_⟩, ?_⟩
  · intro t ht
    rw [htimers] at ht
    rw [hnext]
    rcases List.mem_append.mp ht with h1 | h1
    · exact Nat.lt_succ_of_lt (hlt t (hLsub t h1))
    · simp only [List.mem_cons, List.not_mem_nil, or_false] at h1
      subst h1
      exact Nat.lt_succ_self _
  · intro t ht
    rw [htimers] at ht
    rw [hbuffer]
    rcases List.mem_append.mp ht with h1 | h1
    · rw [alookup_dictInsert_ne _ _ (hLkey t h1)]
      exact h3 t (hLsub t h1)
    · simp only [List.mem_cons, List.not_mem_nil, or_false] at h1
      subst h1
      rw [hnewT]
      rw [alookup_dictInsert_self]
      rfl
  · simp only [timersFor, htimers, List.filter_append]
    have hLnil : L.filter (fun t => decide (t.key = key)) = [] := by
      rw [List.filter_eq_nil_iff]
      intro t ht
      simp [hLkey t ht]
    rw [hLnil]
    simp [hnewT]

lemma inv_fireTimer {s : AsmState} {t : Timer} (h : Inv s) (ht : t ∈ s.timers) :
    Inv (fireTimer t s) := by
  obtain ⟨hnd, hlt, h3⟩ := h
  have htm := h3 t ht
  obtain ⟨g, hg, hgt⟩ : ∃ g, alookup t.key s.buffer = some g ∧ g.timer = some t.id := by
    cases hak : alookup t.key s.buffer with
    | none => rw [hak] at htm; simp at htm
    | some g =>
      rw [hak] at htm
      exact ⟨g, rfl, by simpa using htm⟩
  have hfire : fireTimer t s =
      { s with timers := s.timers.filter (fun u => u.id ≠ t.id),
               buffer := eraseKey t.key s.buffer,
               queue := s.queue ++ [(t.key.1, assembleText g.parts)] } := by
    unfold fireTimer flush_buffer
    rw [show alookup t.key
        ({ s with timers := s.timers.filter (fun u => u.id ≠ t.id) } : AsmState).buffer
      = some g from hg]
  rw [hfire]
  refine ⟨((List.filter_sublist _).map Timer.id).nodup hnd, ?_, ?_⟩
  · intro u hu
    exact hlt u (List.mem_filter.mp hu).1
  · intro u hu
    have hu1 := (List.mem_filter.mp hu).1
    have huid : u.id ≠ t.id := of_decide_eq_true (List.mem_filter.mp hu).2
    have hukey : u.key ≠ t.key := by
      intro hk
      have h3u := h3 u hu1
      rw [hk, hg] at h3u
      simp only [Option.map_some', Option.some.injEq] at h3u
      rw [hgt] at h3u
      simp only [Option.some.injEq] at h3u
      exact huid h3u.symm
    rw [alookup_eraseKey_ne _ hukey]
    exact h3 u hu1

lemma inv_runDue : ∀ (n : Nat) {s : AsmState}, Inv s → Inv (runDue n s) := by
  intro n
  induction n with
  | zero => intro s h; exact h
  | succ n ih =>
    intro s h
    rw [runDue]
    cases hm : minFire (dueTimers s) with
    | none => exact h
    | some t =>
      have ht : t ∈ s.timers := by
        have := minFire_mem hm
        simp only [dueTimers, List.mem_filter] at this
        exact this.1
      exact ih (inv_fireTimer h ht)

lemma inv_advance (dt : Nat) {s : AsmState} (h : Inv s) : Inv (advance dt s) := by
  unfold advance
  apply inv_runDue
  exact ⟨h.1, h.2.1, h.2.2⟩

end Sdk

/-- C6: the buffer keeps at most one live (uncancelled) debounce timer per
pending key — this is an invariant preserved by `add_part` (which atomically
cancels the key's previous handle and schedules a fresh one) and by the loop
running due callbacks; after `add_part` the key's only live timer fires at
`now + timeout` (5 seconds after the *last* segment, not the first). -/
theorem C6_debounce_single_timer (s : Sdk.AsmState) (p ser : Text) (q : Nat) (txt : Text)
    (dt : Nat) (h : Sdk.Inv s) :
    Sdk.Inv (Sdk.add_part p ser q txt s) ∧
    Sdk.timersFor (p, ser) (Sdk.add_part p ser q txt s) =
      [{ id := s.nextId, key := (p, ser), fireAt := s.now + Sdk.timeout }] ∧
    Sdk.Inv (Sdk.advance dt s) ∧
    (∀ k : Sdk.Key, (Sdk.timersFor k s).length ≤ 1) :=
  ⟨(Sdk.inv_add_part h p ser q txt).1, (Sdk.inv_add_part h p ser q txt).2,
    Sdk.inv_advance dt h, fun k => Sdk.timersFor_le_one h k⟩

/-- C6 witness: concrete run from the initial state (the second `add_part` for
the same key replaces the first timer; only one live timer remains, due 5
seconds after the second add). -/
theorem C6_witness :
    Sdk.Inv (Sdk.add_part "777".toList "00".toList 0 "hi".toList
      (Sdk.add_part "777".toList "00".toList 1 "yo".toList Sdk.initState)) ∧
    Sdk.timersFor ("777".toList, "00".toList)
        (Sdk.add_part "777".toList "00".toList 0 "hi".toList
          (Sdk.add_part "777".toList "00".toList 1 "yo".toList Sdk.initState)) =
      [{ id := 1, key := ("777".toList, "00".toList), fireAt := 5 }] ∧
    Sdk.Inv (Sdk.advance 2 (Sdk.add_part "777".toList "00".toList 1 "yo".toList
      Sdk.initState)) ∧
    (∀ k : Sdk.Key,
      (Sdk.timersFor k (Sdk.add_part "777".toList "00".toList 1 "yo".toList
        Sdk.initState)).length ≤ 1) :=
  C6_debounce_single_timer
    (Sdk.add_part "777".toList "00".toList 1 "yo".toList Sdk.initState)
    "777".toList "00".toList 0 "hi".toList 2 (by decide)

namespace Sdk

lemma add_part_fresh {s : AsmState} {p ser : Text} (q : Nat) (txt : Text)
    (h : alookup (p, ser) s.buffer = none) :
    add_part p ser q txt s =
      { buffer := dictInsert (p, ser) { parts := [(q, txt)], timer := some s.nextId } s.buffer,
        timers := s.timers ++ [{ id := s.nextId, key := (p, ser), fireAt := s.now + timeout }],
        nextId := s.nextId + 1, now := s.now, queue := s.queue } := by
  simp [add_part, h]

lemma add_part_single (p ser : Text) (ps : List (Nat × Text)) (i now : Nat)
    (qu : List (Text × Text)) (q : Nat) (txt : Text) :
    add_part p ser q txt (single p ser ps i now qu) =
      single p ser (ps ++ [(q, txt)]) (i + 1) now qu := by
  simp [add_part, single, alookup, dictInsert, List.filter]

lemma addAll_single (p ser : Text) : ∀ (xs ps : List (Nat × Text)) (i now : Nat)
    (qu : List (Text × Text)),
    addAll p ser xs (single p ser ps i now qu) = single p ser (ps ++ xs) (i + xs.length) now qu := by
  intro xs
  induction xs with
  | nil => intro ps i now qu; simp [addAll]
  | cons x xs ih =>
    intro ps i now qu
    have hstep : addAll p ser (x :: xs) (single p ser ps i now qu) =
        addAll p ser xs (add_part p ser x.1 x.2 (single p ser ps i now qu)) := rfl
    rw [hstep, add_part_single, ih]
    have h1 : (ps ++ [(x.1, x.2)]) ++ xs = ps ++ x :: xs := by simp
    have h2 : i + 1 + xs.length = i + (x :: xs).length := by simp; omega
    rw [h1, h2]

lemma advance_single (p ser : Text) (ps : List (Nat × Text)) (i now : Nat)
    (qu : List (Text × Text)) :
    advance timeout (single p ser ps i now qu) =
      { buffer := [], timers := [], nextId := i + 1, now := now + timeout,
        queue := qu ++ [(p, assembleText ps)] } := by
  simp [advance, single, runDue, dueTimers, minFire, fireTimer, flush_buffer,
    alookup, eraseKey, List.filter]

lemma addAll_init (p ser : Text) (x : Nat × Text) (xs : List (Nat × Text)) :
    addAll p ser (x :: xs) initState = single p ser (x :: xs) xs.length 0 [] := by
  have h1 : add_part p ser x.1 x.2 initState = single p ser [x] 0 0 [] := by
    simp [add_part, initState, single, alookup, dictInsert]
  have hstep : addAll p ser (x :: xs) initState =
      addAll p ser xs (add_part p ser x.1 x.2 initState) := rfl
  rw [hstep, h1, addAll_single]
  simp

end Sdk

/-- C1: segments added to the reassembly buffer under one `(phone, serial)` key
and flushed by the debounce timer are emitted as one message whose text is the
concatenation of the segment texts sorted by sequence ascending; for segments
with distinct sequence numbers the result is independent of arrival order. -/
theorem C1_flush_concatenates_in_sequence_order (l1 l2 : List (Nat × Text)) (p ser : Text)
    (hperm : List.Perm l1 l2) (hnd : (l1.map Prod.fst).Nodup) (hne : l1 ≠ []) :
    (Sdk.advance Sdk.timeout (Sdk.addAll p ser l1 Sdk.initState)).queue
        = [(p, assembleText l1)] ∧
    assembleText l1 = assembleText l2 := by
  constructor
  · cases l1 with
    | nil => exact absurd rfl hne
    | cons x xs =>
      rw [Sdk.addAll_init, Sdk.advance_single]
      simp
  · exact assembleText_eq_of_perm hperm hnd

/-- C1 witness: adding `(seq=1, "Hello ")` then `(seq=0, "World: ")` to one key
and letting the timer flush yields the text `"World: Hello "` — sequence
order, not arrival order. -/
theorem C1_witness :
    (Sdk.advance Sdk.timeout (Sdk.addAll "X".toList "00".toList
        [(1, "Hello ".toList), (0, "World: ".toList)] Sdk.initState)).queue
      = [("X".toList, assembleText [(1, "Hello ".toList), (0, "World: ".toList)])] ∧
    assembleText [(1, "Hello ".toList), (0, "World: ".toList)] =
      assembleText [(0, "World: ".toList), (1, "Hello ".toList)] ∧
    assembleText [(1, "Hello ".toList), (0, "World: ".toList)] = "World: Hello ".toList := by
  have h := C1_flush_concatenates_in_sequence_order
    [(1, "Hello ".toList), (0, "World: ".toList)]
    [(0, "World: ".toList), (1, "Hello ".toList)]
    "X".toList "00".toList (by decide) (by decide) (by decide)
  exact ⟨h.1, h.2, by decide⟩

/-- C4: flushing a key that is not present in the buffer map is a no-op — the
whole state (map and queue) is unchanged — and flushing the same key twice
emits at most one message (buffer keys are unique, as in a Python dict). -/
theorem C4_flush_absent_key_noop (s : Sdk.AsmState) (k : Sdk.Key) :
    (alookup k s.buffer = none → Sdk.flush_buffer k s = s) ∧
    ((s.buffer.map Prod.fst).Nodup →
      (Sdk.flush_buffer k (Sdk.flush_buffer k s)).queue.length ≤ s.queue.length + 1) := by
  have hnoop : ∀ s2 : Sdk.AsmState, alookup k s2.buffer = none → Sdk.flush_buffer k s2 = s2 := by
    intro s2 h2
    unfold Sdk.flush_buffer
    rw [h2]
  constructor
  · exact hnoop s
  · intro hnd
    cases hg : alookup k s.buffer with
    | none =>
      rw [hnoop s hg, hnoop s hg]
      omega
    | some g =>
      have h1 : Sdk.flush_buffer k s =
          { s with buffer := eraseKey k s.buffer,
                   queue := s.queue ++ [(k.1, assembleText g.parts)] } := by
        unfold Sdk.flush_buffer
        rw [hg]
      have h2 : alookup k (Sdk.flush_buffer k s).buffer = none := by
        rw [h1]
        exact alookup_eraseKey_self k s.buffer hnd
      have h3 : Sdk.flush_buffer k (Sdk.flush_buffer k s) = Sdk.flush_buffer k s :=
        hnoop (Sdk.flush_buffer k s) h2
      rw [h3, h1]
      simp

/-- C4 witness: flushing a key absent from a one-group buffer, and
double-flushing a present key emits exactly one message. -/
theorem C4_witness :
    (alookup ("B".toList, "01".toList)
        (Sdk.single "A".toList "00".toList [(0, "x".toList)] 0 0 []).buffer = none →
      Sdk.flush_buffer ("B".toList, "01".toList)
        (Sdk.single "A".toList "00".toList [(0, "x".toList)] 0 0 []) =
        Sdk.single "A".toList "00".toList [(0, "x".toList)] 0 0 []) ∧
    (((Sdk.single "A".toList "00".toList [(0, "x".toList)] 0 0 []).buffer.map
        Prod.fst).Nodup →
      (Sdk.flush_buffer ("A".toList, "00".toList)
        (Sdk.flush_buffer ("A".toList, "00".toList)
          (Sdk.single "A".toList "00".toList [(0, "x".toList)] 0 0 []))).queue.length ≤
        (Sdk.single "A".toList "00".toList [(0, "x".toList)] 0 0 []).queue.length + 1) := by
  constructor
  · exact (C4_flush_absent_key_noop
      (Sdk.single "A".toList "00".toList [(0, "x".toList)] 0 0 [])
      ("B".toList, "01".toList)).1
  · exact (C4_flush_absent_key_noop
      (Sdk.single "A".toList "00".toList [(0, "x".toList)] 0 0 [])
      ("A".toList, "00".toList)).2

/-- C7: a segment arriving under a key whose group already flushed (the key is
no longer in the map) starts a fresh group containing only the new segment;
running two such lifecycles for the same key emits two separate messages, the
first never retroactively merged with the straggler. -/
theorem C7_straggler_starts_new_group (s : Sdk.AsmState) (p ser : Text) (q : Nat) (txt : Text)
    (h : alookup (p, ser) s.buffer = none) :
    alookup (p, ser) (Sdk.add_part p ser q txt s).buffer =
      some { parts := [(q, txt)], timer := some s.nextId } ∧
    ∀ t1 t2 : Text,
      (Sdk.advance Sdk.timeout (Sdk.add_part p ser 0 t2
        (Sdk.advance Sdk.timeout (Sdk.add_part p ser 0 t1 Sdk.initState)))).queue
        = [(p, assembleText [(0, t1)]), (p, assembleText [(0, t2)])] := by
  constructor
  · rw [Sdk.add_part_fresh q txt h]
    exact alookup_dictInsert_self _ _ _
  · intro t1 t2
    have e1 : Sdk.add_part p ser 0 t1 Sdk.initState = Sdk.single p ser [(0, t1)] 0 0 [] :=
      Sdk.addAll_init p ser (0, t1) []
    rw [e1, Sdk.advance_single]
    have e2 : Sdk.add_part p ser 0 t2
        ({ buffer := [], timers := [], nextId := 1, now := 0 + Sdk.timeout,
           queue := [] ++ [(p, assembleText [(0, t1)])] } : Sdk.AsmState) =
        Sdk.single p ser [(0, t2)] 1 (0 + Sdk.timeout) ([] ++ [(p, assembleText [(0, t1)])]) := by
      rw [@Sdk.add_part_fresh
        ({ buffer := [], timers := [], nextId := 1, now := 0 + Sdk.timeout,
           queue := [] ++ [(p, assembleText [(0, t1)])] } : Sdk.AsmState) p ser 0 t2 rfl]
      rfl
    rw [e2, Sdk.advance_single]
    rfl

/-- C7 witness: two same-key lifecycles at concrete inputs produce two separate
one-part messages. -/
theorem C7_witness :
    alookup ("Z".toList, "02".toList)
        (Sdk.add_part "Z".toList "02".toList 3 "late".toList Sdk.initState).buffer =
      some { parts := [(3, "late".toList)], timer := some 0 } ∧
    (Sdk.advance Sdk.timeout (Sdk.add_part "Z".toList "02".toList 0 "two".toList
      (Sdk.advance Sdk.timeout (Sdk.add_part "Z".toList "02".toList 0 "one".toList
        Sdk.initState)))).queue
      = [("Z".toList, assembleText [(0, "one".toList)]),
         ("Z".toList, assembleText [(0, "two".toList)])] := by
  have h := C7_straggler_starts_new_group Sdk.initState "Z".toList "02".toList 3
    "late".toList rfl
  exact ⟨h.1, h.2 "one".toList "two".toList⟩

namespace Services

lemma process_buffer_some {s : SvcState} {k : Key} {g : Group}
    (sink : Text → Text → Bool) (hk : alookup k s.buffer = some g) :
    process_buffer sink k s =
      (if sink k.1 (assemble g.parts) then
        { s with buffer := eraseKey k s.buffer,
                 delivered := s.delivered ++ [(k.1, assemble g.parts)] }
      else
        { s with buffer := eraseKey k s.buffer,
                 failures := s.failures ++ [(k.1, assemble g.parts)] }) := by
  unfold process_buffer
  rw [hk]

lemma process_buffer_none {s : SvcState} {k : Key}
    (sink : Text → Text → Bool) (hk : alookup k s.buffer = none) :
    process_buffer sink k s = s := by
  unfold process_buffer
  rw [hk]

lemma add_part_fresh_lookup {s : SvcState} {p ser : Text} (q : Nat) (txt : Text)
    (h : alookup (p, ser) s.buffer = none) :
    alookup (p, ser) (add_part p ser q txt s).buffer =
      some { parts := [(q, txt)],
             timer := if s.loopSet then some s.nextId else none } := by
  unfold add_part
  cases hl : s.loopSet with
  | true =>
    simp only [hl, if_true, h]
    rw [show ({ parts := [], timer := none } : Group) =
      (Option.getD (none : Option Group) { parts := [], timer := none }) from rfl]
    simp [h, alookup_dictInsert_self]
  | false =>
    simp only [hl, if_false, h]
    simp [h, alookup_dictInsert_self]

end Services

/-- C8: a sink (`bark.send`) failure during a flush is caught inside the flush
(`process_buffer` is a total function: nothing is delivered, the failure is
only logged), the popped group is not restored, and a subsequently arriving
unrelated group is accepted and flushes correctly. -/
theorem C8_sink_failure_isolated (s : Services.SvcState) (k k2 : Services.Key)
    (sink sink2 : Text → Text → Bool) (g : Services.Group) (q : Nat) (txt : Text)
    (hk : alookup k s.buffer = some g)
    (hfail : sink k.1 (Services.assemble g.parts) = false)
    (hne : k2 ≠ k) (hk2 : alookup k2 s.buffer = none)
    (hok : sink2 k2.1 (Services.assemble [(q, txt)]) = true) :
    (Services.process_buffer sink k s).buffer = eraseKey k s.buffer ∧
    (Services.process_buffer sink k s).delivered = s.delivered ∧
    (Services.process_buffer sink2 k2 (Services.add_part k2.1 k2.2 q txt
        (Services.process_buffer sink k s))).delivered
      = s.delivered ++ [(k2.1, Services.assemble [(q, txt)])] := by
  have h1 : Services.process_buffer sink k s =
      { s with buffer := eraseKey k s.buffer,
               failures := s.failures ++ [(k.1, Services.assemble g.parts)] } := by
    rw [Services.process_buffer_some sink hk, if_neg (by rw [hfail]; exact Bool.false_ne_true)]
  have hk2s1 : alookup k2 (Services.process_buffer sink k s).buffer = none := by
    rw [h1]
    show alookup k2 (eraseKey k s.buffer) = none
    rw [alookup_eraseKey_ne _ hne]
    exact hk2
  have hfresh : alookup k2 (Services.add_part k2.1 k2.2 q txt
      (Services.process_buffer sink k s)).buffer =
      some { parts := [(q, txt)],
             timer := if (Services.process_buffer sink k s).loopSet then
               some (Services.process_buffer sink k s).nextId else none } :=
    Services.add_part_fresh_lookup q txt hk2s1
  have hdel : ∀ s2 : Services.SvcState, (Services.add_part k2.1 k2.2 q txt s2).delivered
      = s2.delivered := by
    intro s2
    unfold Services.add_part
    cases s2.loopSet <;> simp
  refine ⟨by rw [h1], by rw [h1], ?_⟩
  rw [Services.process_buffer_some sink2 hfresh, if_pos hok]
  show (Services.add_part k2.1 k2.2 q txt (Services.process_buffer sink k s)).delivered
      ++ [(k2.1, Services.assemble [(q, txt)])]
    = s.delivered ++ [(k2.1, Services.assemble [(q, txt)])]
  rw [hdel, h1]

/-- C8 witness: concrete failing sink on one group, then a different group
delivered by a working sink. -/
theorem C8_witness :
    (Services.process_buffer (fun _ _ => false) ("A".toList, "00".toList)
      svcOneGroup).buffer = eraseKey ("A".toList, "00".toList) svcOneGroup.buffer ∧
    (Services.process_buffer (fun _ _ => false) ("A".toList, "00".toList)
      svcOneGroup).delivered = svcOneGroup.delivered ∧
    (Services.process_buffer (fun _ _ => true) ("B".toList, "01".toList)
      (Services.add_part "B".toList "01".toList 0 "ok".toList
        (Services.process_buffer (fun _ _ => false) ("A".toList, "00".toList)
          svcOneGroup))).delivered
      = svcOneGroup.delivered ++ [("B".toList, Services.assemble [(0, "ok".toList)])] :=
  C8_sink_failure_isolated svcOneGroup ("A".toList, "00".toList) ("B".toList, "01".toList)
    (fun _ _ => false) (fun _ _ => true) { parts := [(0, "x".toList)], timer := some 0 }
    0 "ok".toList (by decide) rfl (by decide) (by decide) rfl

/-- C9 (counterexample): the claim says that whenever creating the missing
spool directory fails, startup returns normally and the watcher never starts.
But `SMSService.start` catches only `PermissionError`: an `os.makedirs`
failure with any other `OSError` (e.g. a read-only filesystem) propagates out
of `start` instead of returning. -/
theorem C9_counterexample_other_oserror :
    (serviceStart envOther).1 = Except.error OSErr.other ∧ (serviceStart envOther).2 = 1 := by
  constructor
  · rfl
  · rfl

/-- C9 (amended): on startup with a missing spool directory both
implementations attempt exactly one directory creation; when the creation
fails, the sdk startup always returns normally with the watcher never started;
the services startup does so when the failure is a `PermissionError`, while
any other `OSError` propagates out of `start`. -/
theorem C9_startup_creation_failure (e : StartEnv) (err : OSErr)
    (hdir : e.dirExists = false) (hfail : e.makedirsResult = some err) :
    (monitorStart e).2 = 1 ∧ (serviceStart e).2 = 1 ∧
    (monitorStart e).1 = Except.ok StartOutcome.inert ∧
    (err = OSErr.permission → (serviceStart e).1 = Except.ok StartOutcome.inert) ∧
    (err = OSErr.other → (serviceStart e).1 = Except.error OSErr.other) := by
  cases err <;> simp [serviceStart, monitorStart, hdir, hfail]

/-- C9 witness: a permission failure on the missing directory leaves both
subsystems inert after exactly one creation attempt. -/
theorem C9_witness :
    (monitorStart envPerm).2 = 1 ∧ (serviceStart envPerm).2 = 1 ∧
    (monitorStart envPerm).1 = Except.ok StartOutcome.inert ∧
    (OSErr.permission = OSErr.permission →
      (serviceStart envPerm).1 = Except.ok StartOutcome.inert) ∧
    (OSErr.permission = OSErr.other →
      (serviceStart envPerm).1 = Except.error OSErr.other) :=
  C9_startup_creation_failure envPerm OSErr.permission rfl rfl

/-- C10: the two reassembly implementations agree — the services handler's
filename pattern (the same regex literal) accepts exactly the filenames that
`sdk`'s `parse_filename` accepts, with the same five fields; both sides
produce the same assembled text from the same part list; and both flushes
emit that text for the stored group (sdk onto the queue, services to the
delivered sink). -/
theorem C10_implementations_equivalent :
    (∀ s : Text, Services.handlerParse s = parse_filename s) ∧
    (∀ l : List (Nat × Text), Services.assemble l = assembleText l) ∧
    (∀ (k : Sdk.Key) (s : Sdk.AsmState) (g : Sdk.Group), alookup k s.buffer = some g →
      (Sdk.flush_buffer k s).queue = s.queue ++ [(k.1, assembleText g.parts)]) ∧
    (∀ (k : Services.Key) (s : Services.SvcState) (g : Services.Group)
      (sink : Text → Text → Bool), alookup k s.buffer = some g →
      sink k.1 (Services.assemble g.parts) = true →
      (Services.process_buffer sink k s).delivered
        = s.delivered ++ [(k.1, assembleText g.parts)]) := by
  refine ⟨fun s => rfl, fun l => rfl, ?_, ?_⟩
  · intro k s g hg
    unfold Sdk.flush_buffer
    rw [hg]
  · intro k s g sink hg hok
    rw [Services.process_buffer_some sink hg, if_pos hok]
    exact rfl

/-- C10 witness: agreement at a concrete filename, part list, and one concrete
flush on each side. -/
theorem C10_witness :
    Services.handlerParse ("IN20251210_001000_00_9_01.txt".toList) =
      parse_filename ("IN20251210_001000_00_9_01.txt".toList) ∧
    Services.assemble [(1, "b".toList), (0, "a".toList)] =
      assembleText [(1, "b".toList), (0, "a".toList)] ∧
    (Sdk.flush_buffer ("A".toList, "00".toList)
        (Sdk.single "A".toList "00".toList [(0, "x".toList)] 0 0 [])).queue
      = [] ++ [("A".toList, assembleText [(0, "x".toList)])] ∧
    (Services.process_buffer (fun _ _ => true) ("A".toList, "00".toList)
        svcOneGroup).delivered
      = [] ++ [("A".toList, assembleText [(0, "x".toList)])] := by
  have h := C10_implementations_equivalent
  exact ⟨h.1 _, h.2.1 _,
    h.2.2.1 ("A".toList, "00".toList)
      (Sdk.single "A".toList "00".toList [(0, "x".toList)] 0 0 [])
      { parts := [(0, "x".toList)], timer := some 0 } (by decide),
    h.2.2.2 ("A".toList, "00".toList) svcOneGroup
      { parts := [(0, "x".toList)], timer := some 0 } (fun _ _ => true) (by decide) rfl⟩

lemma strLe_total : ∀ a b : Text, strLe a b = true ∨ strLe b a = true := by
  intro a
  induction a with
  | nil => intro b; left; rfl
  | cons x xs ih =>
    intro b
    cases b with
    | nil => right; rfl
    | cons y ys =>
      by_cases h : x.toNat = y.toNat
      · rcases ih ys with h1 | h1
        · left; simp [strLe, h, h1]
        · right; simp [strLe, h.symm, h1]
      · rcases Nat.lt_or_ge x.toNat y.toNat with hlt | hge
        · left; simp [strLe, h, hlt]
        · right
          have hne : y.toNat ≠ x.toNat := fun he => h he.symm
          have hlt2 : y.toNat < x.toNat := Nat.lt_of_le_of_ne hge hne
          simp [strLe, hne, hlt2]

lemma strLe_trans : ∀ a b c : Text, strLe a b = true → strLe b c = true →
    strLe a c = true := by
  intro a
  induction a with
  | nil => intro b c _ _; rfl
  | cons x xs ih =>
    intro b c hab hbc
    cases b with
    | nil => simp [strLe] at hab
    | cons y ys =>
      cases c with
      | nil => simp [strLe] at hbc
      | cons z zs =>
        by_cases hxy : x.toNat = y.toNat
        · by_cases hyz : y.toNat = z.toNat
          · have hxz : x.toNat = z.toNat := hxy.trans hyz
            simp only [strLe, if_pos hxy] at hab
            simp only [strLe, if_pos hyz] at hbc
            simp only [strLe, if_pos hxz]
            exact ih ys zs hab hbc
          · simp only [strLe, if_neg hyz, decide_eq_true_eq] at hbc
            have hxz : x.toNat ≠ z.toNat := by rw [hxy]; exact Nat.ne_of_lt hbc
            simp only [strLe, if_neg hxz, decide_eq_true_eq]
            rw [hxy]
            exact hbc
        · simp only [strLe, if_neg hxy, decide_eq_true_eq] at hab
          by_cases hyz : y.toNat = z.toNat
          · have hxz : x.toNat ≠ z.toNat := by rw [← hyz]; exact Nat.ne_of_lt hab
            simp only [strLe, if_neg hxz, decide_eq_true_eq]
            rw [← hyz]
            exact hab
          · simp only [strLe, if_neg hyz, decide_eq_true_eq] at hbc
            have hxz : x.toNat < z.toNat := Nat.lt_trans hab hbc
            simp only [strLe, if_neg (Nat.ne_of_lt hxz), decide_eq_true_eq]
            exact hxz

instance : IsTotal Msg msgLe := ⟨fun a b => strLe_total b.ts a.ts⟩

instance : IsTrans Msg msgLe := ⟨fun _ b _ hab hbc => strLe_trans _ b.ts _ hbc hab⟩

lemma foldl_scanStep_filter : ∀ (files : List (Text × Text))
    (m : List (GKey × List (Nat × Text))),
    files.foldl scanStep m =
      (files.filter (fun f => (parse_filename f.1).isSome)).foldl scanStep m := by
  intro files
  induction files with
  | nil => intro m; rfl
  | cons f fs ih =>
    intro m
    cases hp : parse_filename f.1 with
    | none =>
      have hstep : scanStep m f = m := by unfold scanStep; rw [hp]
      have hfil : (f :: fs).filter (fun f => (parse_filename f.1).isSome) =
          fs.filter (fun f => (parse_filename f.1).isSome) := by
        simp [List.filter_cons, hp]
      rw [List.foldl_cons, hstep, hfil, ih]
    | some meta =>
      have hfil : (f :: fs).filter (fun f => (parse_filename f.1).isSome) =
          f :: fs.filter (fun f => (parse_filename f.1).isSome) := by
        simp [List.filter_cons, hp]
      rw [hfil, List.foldl_cons, List.foldl_cons, ih]

/-- C5: the scan discards files with unparseable names (the result only
depends on the parseable entries of the listing), returns at most `limit`
messages, returns them sorted by timestamp descending, and on a listing of 12
well-formed two-part messages plus 3 garbage files `scan 5` returns exactly
the 5 newest assembled messages, garbage excluded. -/
theorem C5_scan_groups_sorts_truncates :
    (∀ (limit : Nat) (files : List (Text × Text)),
      get_inbox_messages limit files =
        get_inbox_messages limit (files.filter (fun f => (parse_filename f.1).isSome))) ∧
    (∀ (limit : Nat) (files : List (Text × Text)),
      (get_inbox_messages limit files).length ≤ limit) ∧
    (∀ (limit : Nat) (files : List (Text × Text)),
      (get_inbox_messages limit files).Pairwise msgLe) ∧
    get_inbox_messages 5 exampleFiles = [
      { ts := "2025-01-12 12:00:00".toList, sender := "777".toList, text := "uv".toList },
      { ts := "2025-01-11 12:00:00".toList, sender := "777".toList, text := "uv".toList },
      { ts := "2025-01-10 12:00:00".toList, sender := "777".toList, text := "uv".toList },
      { ts := "2025-01-09 12:00:00".toList, sender := "777".toList, text := "uv".toList },
      { ts := "2025-01-08 12:00:00".toList, sender := "777".toList, text := "uv".toList }
    ] := by
  refine ⟨?_, ?_, ?_, ?_⟩
  · intro limit files
    unfold get_inbox_messages buildMap
    rw [foldl_scanStep_filter]
  · intro limit files
    unfold get_inbox_messages
    rw [List.length_take]
    exact Nat.min_le_left _ _
  · intro limit files
    unfold get_inbox_messages
    exact List.Pairwise.sublist (List.take_sublist _ _)
      (List.sorted_insertionSort msgLe _)
  · decide
